import Mathlib

/-!
Verification development for the memory-record core of the repository:
content hashing (`compute_content_hash`), tool-call hashing
(`ToolCallResult.generate_hash` / `ensure_hash`), scope-schema merging
(`merge_scope_model`), and the tool-call ledger accessors and statistics
(`get_tool_calls`, `set_tool_calls`, `add_tool_call`, `get_tool_statistics`).

Machine integers are modelled as `Nat` with explicit `% 2 ^ 32` where the
source relies on 32-bit wraparound; Python floats are modelled as rationals,
with `round(x, n)` modelled as exact round-half-to-even on rationals.
-/

/-! ### Bytes and hex encoding -/

/-- One hexadecimal digit (lowercase), as produced by Python `hexdigest`. -/
def hexDigitChar (n : Nat) : Char :=
  if n < 10 then Char.ofNat (48 + n) else Char.ofNat (87 + n)

/-- Two lowercase hex characters for one byte. -/
def byteToHex (b : Nat) : List Char :=
  [hexDigitChar (b / 16), hexDigitChar (b % 16)]

/-- Lowercase hex string of a byte sequence, as in Python `hexdigest()`. -/
def bytesToHexString (bs : List Nat) : String :=
  String.mk (bs.flatMap byteToHex)

/-- UTF-8 encoding of a single character (code point), as a list of bytes. -/
def charUtf8 (c : Char) : List Nat :=
  let n := c.toNat
  if n < 0x80 then [n]
  else if n < 0x800 then [0xc0 + n / 64, 0x80 + n % 64]
  else if n < 0x10000 then [0xe0 + n / 4096, 0x80 + n / 64 % 64, 0x80 + n % 64]
  else [0xf0 + n / 262144, 0x80 + n / 4096 % 64, 0x80 + n / 64 % 64, 0x80 + n % 64]

/-- UTF-8 encoding of a string, as in Python `str.encode("utf-8")`. -/
def utf8Encode (s : String) : List Nat :=
  s.data.flatMap charUtf8

/-! ### 32-bit arithmetic helpers -/

def mask32 : Nat := 2 ^ 32

/-- Right rotation of a 32-bit word. -/
def rotr32 (x n : Nat) : Nat :=
  (x >>> n ||| x <<< (32 - n)) % mask32

/-- Left rotation of a 32-bit word. -/
def rotl32 (x n : Nat) : Nat :=
  (x <<< n ||| x >>> (32 - n)) % mask32

/-- Bitwise complement within 32 bits. -/
def not32 (x : Nat) : Nat := x ^^^ 0xffffffff

/-- Big-endian bytes of a 32-bit word. -/
def word32BeBytes (w : Nat) : List Nat :=
  [w / 2 ^ 24 % 256, w / 2 ^ 16 % 256, w / 2 ^ 8 % 256, w % 256]

/-- Little-endian bytes of a 32-bit word. -/
def word32LeBytes (w : Nat) : List Nat :=
  [w % 256, w / 2 ^ 8 % 256, w / 2 ^ 16 % 256, w / 2 ^ 24 % 256]

/-- Split a byte list into chunks of 64 (the final chunk may be shorter;
after padding every chunk is exactly 64 bytes). -/
def chunk64 (l : List Nat) : List (List Nat) :=
  if h : l = [] then []
  else
    have : l.length - 64 < l.length := by
      have : 0 < l.length := List.length_pos.mpr h
      omega
    l.take 64 :: chunk64 (l.drop 64)
termination_by l.length
decreasing_by simpa using this

/-- Big-endian 32-bit words of a byte list (groups of four bytes). -/
def bytesToWordsBe : List Nat → List Nat
  | b0 :: b1 :: b2 :: b3 :: rest =>
      (b0 * 2 ^ 24 + b1 * 2 ^ 16 + b2 * 2 ^ 8 + b3) :: bytesToWordsBe rest
  | _ => []

/-- Little-endian 32-bit words of a byte list (groups of four bytes). -/
def bytesToWordsLe : List Nat → List Nat
  | b0 :: b1 :: b2 :: b3 :: rest =>
      (b0 + b1 * 2 ^ 8 + b2 * 2 ^ 16 + b3 * 2 ^ 24) :: bytesToWordsLe rest
  | _ => []

/-! ### SHA-256 (as used by `hashlib.sha256` in `compute_content_hash`) -/

def sha256K : List Nat :=
  [1116352408, 1899447441, 3049323471, 3921009573, 961987163, 1508970993, 2453635748, 2870763221,
   3624381080, 310598401, 607225278, 1426881987, 1925078388, 2162078206, 2614888103, 3248222580,
   3835390401, 4022224774, 264347078, 604807628, 770255983, 1249150122, 1555081692, 1996064986,
   2554220882, 2821834349, 2952996808, 3210313671, 3336571891, 3584528711, 113926993, 338241895,
   666307205, 773529912, 1294757372, 1396182291, 1695183700, 1986661051, 2177026350, 2456956037,
   2730485921, 2820302411, 3259730800, 3345764771, 3516065817, 3600352804, 4094571909, 275423344,
   430227734, 506948616, 659060556, 883997877, 958139571, 1322822218, 1537002063, 1747873779,
   1955562222, 2024104815, 2227730452, 2361852424, 2428436474, 2756734187, 3204031479, 3329325298]

/-- Running state of the SHA-256 compression function: eight 32-bit words. -/
structure Sha256State where
  s0 : Nat
  s1 : Nat
  s2 : Nat
  s3 : Nat
  s4 : Nat
  s5 : Nat
  s6 : Nat
  s7 : Nat

def sha256Init : Sha256State :=
  ⟨1779033703, 3144134277, 1013904242, 2773480762, 1359893119, 2600822924, 528734635, 1541459225⟩

/-- Message-schedule extension: grow the 16 block words to 64 words. -/
def sha256Schedule (block : List Nat) : List Nat :=
  (List.range 48).foldl
    (fun ws _ =>
      let i := ws.length
      let w15 := ws.getD (i - 15) 0
      let w2 := ws.getD (i - 2) 0
      let w16 := ws.getD (i - 16) 0
      let w7 := ws.getD (i - 7) 0
      let sg0 := rotr32 w15 7 ^^^ rotr32 w15 18 ^^^ w15 >>> 3
      let sg1 := rotr32 w2 17 ^^^ rotr32 w2 19 ^^^ w2 >>> 10
      ws ++ [(w16 + sg0 + w7 + sg1) % mask32])
    block

/-- One SHA-256 round, consuming one (constant, schedule word) pair. -/
def sha256Round (st : Sha256State) (kw : Nat × Nat) : Sha256State :=
  let e := st.s4
  let bigS1 := rotr32 e 6 ^^^ rotr32 e 11 ^^^ rotr32 e 25
  let ch := e &&& st.s5 ^^^ not32 e &&& st.s6
  let temp1 := (st.s7 + bigS1 + ch + kw.1 + kw.2) % mask32
  let a := st.s0
  let bigS0 := rotr32 a 2 ^^^ rotr32 a 13 ^^^ rotr32 a 22
  let maj := a &&& st.s1 ^^^ a &&& st.s2 ^^^ st.s1 &&& st.s2
  let temp2 := (bigS0 + maj) % mask32
  ⟨(temp1 + temp2) % mask32, st.s0, st.s1, st.s2,
   (st.s3 + temp1) % mask32, st.s4, st.s5, st.s6⟩

/-- Process one 64-byte block (given as 16 big-endian words). -/
def sha256Compress (st : Sha256State) (block : List Nat) : Sha256State :=
  let ws := sha256Schedule block
  let f := (sha256K.zip ws).foldl sha256Round st
  ⟨(st.s0 + f.s0) % mask32, (st.s1 + f.s1) % mask32, (st.s2 + f.s2) % mask32,
   (st.s3 + f.s3) % mask32, (st.s4 + f.s4) % mask32, (st.s5 + f.s5) % mask32,
   (st.s6 + f.s6) % mask32, (st.s7 + f.s7) % mask32⟩

/-- SHA-256 padding: `0x80`, zeros to 56 mod 64, then the 64-bit big-endian
bit length. -/
def sha256Pad (msg : List Nat) : List Nat :=
  let padZeros := (119 - msg.length % 64) % 64
  let bitLen := 8 * msg.length
  msg ++ [0x80] ++ List.replicate padZeros 0 ++
    [bitLen / 2 ^ 56 % 256, bitLen / 2 ^ 48 % 256, bitLen / 2 ^ 40 % 256,
     bitLen / 2 ^ 32 % 256, bitLen / 2 ^ 24 % 256, bitLen / 2 ^ 16 % 256,
     bitLen / 2 ^ 8 % 256, bitLen % 256]

/-- SHA-256 digest of a byte sequence, as a list of 32 bytes. -/
def sha256Bytes (msg : List Nat) : List Nat :=
  let final := ((chunk64 (sha256Pad msg)).map bytesToWordsBe).foldl sha256Compress sha256Init
  word32BeBytes final.s0 ++ word32BeBytes final.s1 ++ word32BeBytes final.s2 ++
    word32BeBytes final.s3 ++ word32BeBytes final.s4 ++ word32BeBytes final.s5 ++
    word32BeBytes final.s6 ++ word32BeBytes final.s7

/-- `hashlib.sha256(bs).hexdigest()`. -/
def sha256Hex (bs : List Nat) : String :=
  bytesToHexString (sha256Bytes bs)

/-! ### MD5 (as used by `hashlib.md5` in `ToolCallResult.generate_hash`) -/

def md5K : List Nat :=
  [3614090360, 3905402710, 606105819, 3250441966, 4118548399, 1200080426, 2821735955, 4249261313,
   1770035416, 2336552879, 4294925233, 2304563134, 1804603682, 4254626195, 2792965006, 1236535329,
   4129170786, 3225465664, 643717713, 3921069994, 3593408605, 38016083, 3634488961, 3889429448,
   568446438, 3275163606, 4107603335, 1163531501, 2850285829, 4243563512, 1735328473, 2368359562,
   4294588738, 2272392833, 1839030562, 4259657740, 2763975236, 1272893353, 4139469664, 3200236656,
   681279174, 3936430074, 3572445317, 76029189, 3654602809, 3873151461, 530742520, 3299628645,
   4096336452, 1126891415, 2878612391, 4237533241, 1700485571, 2399980690, 4293915773, 2240044497,
   1873313359, 4264355552, 2734768916, 1309151649, 4149444226, 3174756917, 718787259, 3951481745]

def md5S : List Nat :=
  [7, 12, 17, 22, 7, 12, 17, 22, 7, 12, 17, 22, 7, 12, 17, 22,
   5, 9, 14, 20, 5, 9, 14, 20, 5, 9, 14, 20, 5, 9, 14, 20,
   4, 11, 16, 23, 4, 11, 16, 23, 4, 11, 16, 23, 4, 11, 16, 23,
   6, 10, 15, 21, 6, 10, 15, 21, 6, 10, 15, 21, 6, 10, 15, 21]

/-- Running state of the MD5 compression function: four 32-bit words. -/
structure Md5State where
  a : Nat
  b : Nat
  c : Nat
  d : Nat

def md5Init : Md5State := ⟨1732584193, 4023233417, 2562383102, 271733878⟩

/-- One MD5 round `i` (0 ≤ i < 64) over block words `m`. -/
def md5Round (m : List Nat) (st : Md5State) (i : Nat) : Md5State :=
  let fg :=
    if i < 16 then (st.b &&& st.c ||| not32 st.b &&& st.d, i)
    else if i < 32 then (st.d &&& st.b ||| not32 st.d &&& st.c, (5 * i + 1) % 16)
    else if i < 48 then (st.b ^^^ st.c ^^^ st.d, (3 * i + 5) % 16)
    else (st.c ^^^ (st.b ||| not32 st.d), 7 * i % 16)
  let f := (fg.1 + st.a + md5K.getD i 0 + m.getD fg.2 0) % mask32
  ⟨st.d, (st.b + rotl32 f (md5S.getD i 0)) % mask32, st.b, st.c⟩

/-- Process one 64-byte block (given as 16 little-endian words). -/
def md5Compress (st : Md5State) (block : List Nat) : Md5State :=
  let f := (List.range 64).foldl (md5Round block) st
  ⟨(st.a + f.a) % mask32, (st.b + f.b) % mask32, (st.c + f.c) % mask32, (st.d + f.d) % mask32⟩

/-- MD5 padding: `128`, zeros to 56 mod 64, then the 64-bit little-endian
bit length. -/
def md5Pad (msg : List Nat) : List Nat :=
  let padZeros := (119 - msg.length % 64) % 64
  let bitLen := 8 * msg.length
  msg ++ [128] ++ List.replicate padZeros 0 ++
    [bitLen % 256, bitLen / 2 ^ 8 % 256, bitLen / 2 ^ 16 % 256, bitLen / 2 ^ 24 % 256,
     bitLen / 2 ^ 32 % 256, bitLen / 2 ^ 40 % 256, bitLen / 2 ^ 48 % 256, bitLen / 2 ^ 56 % 256]

/-- MD5 digest of a byte sequence, as a list of 16 bytes. -/
def md5Bytes (msg : List Nat) : List Nat :=
  let final := ((chunk64 (md5Pad msg)).map bytesToWordsLe).foldl md5Compress md5Init
  word32LeBytes final.a ++ word32LeBytes final.b ++ word32LeBytes final.c ++ word32LeBytes final.d

/-- `hashlib.md5(bs).hexdigest()`. -/
def md5Hex (bs : List Nat) : String :=
  bytesToHexString (md5Bytes bs)

/-! ### JSON values and `json.dumps(..., sort_keys=True)` -/

/-- JSON-serializable Python values, as can appear in a tool-call `input`
mapping. -/
inductive JVal where
  | str : String → JVal
  | int : Int → JVal
  | bool : Bool → JVal
  | null : JVal
  | arr : List JVal → JVal
  | obj : List (String × JVal) → JVal

/-- Four hex digits (lowercase) of a 16-bit value, for `\uXXXX` escapes. -/
def jsonHex4 (n : Nat) : List Char :=
  [hexDigitChar (n / 4096 % 16), hexDigitChar (n / 256 % 16),
   hexDigitChar (n / 16 % 16), hexDigitChar (n % 16)]

/-- Escape one character as Python `json.dumps` does with its default
`ensure_ascii=True`: everything outside `0x20`–`0x7e` is escaped, with
surrogate pairs above the BMP. -/
def jsonEscapeChar (c : Char) : List Char :=
  if c = '"' then ['\\', '"']
  else if c = '\\' then ['\\', '\\']
  else if c = '\n' then ['\\', 'n']
  else if c = '\r' then ['\\', 'r']
  else if c = '\t' then ['\\', 't']
  else if c.toNat = 8 then ['\\', 'b']
  else if c.toNat = 12 then ['\\', 'f']
  else if 0x20 ≤ c.toNat ∧ c.toNat ≤ 0x7e then [c]
  else if c.toNat < 0x10000 then '\\' :: 'u' :: jsonHex4 c.toNat
  else
    let n := c.toNat - 0x10000
    ('\\' :: 'u' :: jsonHex4 (0xd800 + n / 0x400)) ++ '\\' :: 'u' :: jsonHex4 (0xdc00 + n % 0x400)

/-- A JSON string literal with its surrounding quotes. -/
def jsonQuote (s : String) : String :=
  String.mk ('"' :: s.data.flatMap jsonEscapeChar ++ ['"'])

/-- Key order used by `sort_keys=True`: lexicographic on the key string. -/
def keyLe (p q : String × String) : Prop := p.1 ≤ q.1

instance : DecidableRel keyLe := fun p q => inferInstanceAs (Decidable (p.1 ≤ q.1))

/-- `json.dumps(v, sort_keys=True)`: mapping keys are serialized in sorted
order at every nesting level, with the default `", "` and `": "` separators. -/
def JVal.dumps : JVal → String
  | .str s => jsonQuote s
  | .int n => toString n
  | .bool b => if b then "true" else "false"
  | .null => "null"
  | .arr l => "[" ++ String.intercalate ", " (l.attach.map (fun v => v.1.dumps)) ++ "]"
  | .obj m =>
      let rendered := m.attach.map (fun x => (x.1.1, x.1.2.dumps))
      let sorted := List.insertionSort keyLe rendered
      "\x7b" ++ String.intercalate ", " (sorted.map (fun p => jsonQuote p.1 ++ ": " ++ p.2)) ++ "\x7d"
decreasing_by
· have h1 := List.sizeOf_lt_of_mem v.2
  simp only [JVal.arr.sizeOf_spec]
  omega
· have h1 := List.sizeOf_lt_of_mem x.2
  have h2 : sizeOf x.1.2 < sizeOf x.1 := by
    obtain ⟨⟨a, b⟩, hx⟩ := x
    simp only [Prod.mk.sizeOf_spec]
    omega
  simp only [JVal.obj.sizeOf_spec]
  omega

/-! ### Python string helpers used by `compute_content_hash` -/

/-- `str.lower` restricted to ASCII letters (the inputs of interest here). -/
def pyCharLower (c : Char) : Char :=
  if 'A' ≤ c ∧ c ≤ 'Z' then Char.ofNat (c.toNat + 32) else c

def pyLower (s : String) : String := String.mk (s.data.map pyCharLower)

/-- The ASCII whitespace characters recognized by `str.split()`. -/
def pyIsSpace (c : Char) : Bool :=
  c = ' ' ∨ c = '\t' ∨ c = '\n' ∨ c = '\r' ∨ c.toNat = 11 ∨ c.toNat = 12

/-- Split a character list at every whitespace character (the resulting
pieces between two adjacent separators are empty). -/
def splitOnWS : List Char → List (List Char)
  | [] => [[]]
  | c :: rest =>
      match splitOnWS rest with
      | [] => []
      | w :: ws => if pyIsSpace c then [] :: w :: ws else (c :: w) :: ws

/-- `str.split()` with no separator: split on whitespace runs, dropping
empty pieces. -/
def pySplitWS (s : String) : List String :=
  ((splitOnWS s.data).map String.mk).filter (fun t => t ≠ "")

/-- Python string slice `s[:n]`. -/
def pyStrTake (s : String) (n : Nat) : String := String.mk (s.data.take n)

/-! ### `compute_content_hash` (src/memu/database/models.py) -/

/-- The whitespace/case normalization `" ".join(summary.lower().split())`. -/
def normalizeSummary (summary : String) : String :=
  String.intercalate " " (pySplitWS (pyLower summary))

/-- `compute_content_hash(summary, memory_type)`: SHA-256 of
`"{memory_type}:{normalized}"`, truncated to the first 16 hex characters. -/
def computeContentHash (summary memory_type : String) : String :=
  let normalized := normalizeSummary summary
  let content := memory_type ++ ":" ++ normalized
  pyStrTake (sha256Hex (utf8Encode content)) 16

/-! ### `ToolCallResult` (src/memu/database/models.py) -/

/-- A tool-call `input`: either a parameter mapping or a plain string. -/
inductive ToolInput where
  | dict : List (String × JVal) → ToolInput
  | str : String → ToolInput

/-- `json.dumps(self.input, sort_keys=True) if isinstance(self.input, dict)
else str(self.input)`. -/
def toolInputStr : ToolInput → String
  | .dict m => JVal.dumps (.obj m)
  | .str s => s

/-- `ToolCallResult`, with the pydantic field defaults. `created_at` is an
abstract timestamp (its default-factory clock value is irrelevant here). -/
structure ToolCallResult where
  tool_name : String
  input : ToolInput := .str ""
  output : String := ""
  success : Bool := true
  time_cost : ℚ := 0
  token_cost : Int := -1
  score : ℚ := 0
  call_hash : String := ""
  created_at : Nat := 0

/-- `ToolCallResult.generate_hash`: MD5 of
`"{tool_name}|{input_str}|{output}"` over UTF-8 bytes. -/
def ToolCallResult.generateHash (r : ToolCallResult) : String :=
  let input_str := toolInputStr r.input
  let combined := r.tool_name ++ "|" ++ input_str ++ "|" ++ r.output
  md5Hex (utf8Encode combined)

/-- `ToolCallResult.ensure_hash`: set `call_hash` only when it is empty. -/
def ToolCallResult.ensureHash (r : ToolCallResult) : ToolCallResult :=
  if r.call_hash = "" then { r with call_hash := r.generateHash } else r

/-! ### `MemoryItem` and its `extra` map -/

/-- The serialized (`model_dump`) form of a tool-call record, as stored in
`extra["tool_calls"]`.  Every field is optional: `get_tool_statistics` reads
these dicts with `.get(..., default)` and must tolerate missing keys. -/
structure ToolEntry where
  tool_name : Option String := none
  input : Option ToolInput := none
  output : Option String := none
  success : Option Bool := none
  time_cost : Option ℚ := none
  token_cost : Option Int := none
  score : Option ℚ := none
  call_hash : Option String := none
  created_at : Option Nat := none

/-- `ToolCallResult.model_dump()`: the dict form, every field present. -/
def ToolCallResult.modelDump (r : ToolCallResult) : ToolEntry :=
  { tool_name := some r.tool_name, input := some r.input, output := some r.output,
    success := some r.success, time_cost := some r.time_cost,
    token_cost := some r.token_cost, score := some r.score,
    call_hash := some r.call_hash, created_at := some r.created_at }

/-- A value stored in a `MemoryItem.extra` map.  The `tool_calls` key holds a
list of serialized tool-call records; other convention-typed keys
(`content_hash`, `reinforcement_count`, ...) hold strings or integers. -/
inductive ExtraVal where
  | calls : List ToolEntry → ExtraVal
  | str : String → ExtraVal
  | int : Int → ExtraVal

/-- Lookup in an insertion-ordered Python dict. -/
def dictGet {α : Type} : List (String × α) → String → Option α
  | [], _ => none
  | (k', v') :: rest, k => if k' = k then some v' else dictGet rest k

/-- Assignment in an insertion-ordered Python dict: update in place if the
key exists, else append at the end. -/
def dictSet {α : Type} : List (String × α) → String → α → List (String × α)
  | [], k, v => [(k, v)]
  | (k', v') :: rest, k, v =>
      if k' = k then (k', v) :: rest else (k', v') :: dictSet rest k v

/-- `MemoryItem`.  Timestamps are abstract; `extra` is `none` to model a
`None` value (the code guards `item.extra or {}` / `is None`). -/
structure MemoryItem where
  id : String := ""
  created_at : Nat := 0
  updated_at : Nat := 0
  resource_id : Option String := none
  memory_type : String
  summary : String := ""
  embedding : Option (List ℚ) := none
  happened_at : Option Nat := none
  extra : Option (List (String × ExtraVal)) := some []

/-! ### Tool-call ledger accessors (src/memu/utils/tool.py) -/

/-- `get_tool_calls(item)`: `(item.extra or {}).get("tool_calls", [])`.
The `tool_calls` key is list-typed by the model-level convention. -/
def getToolCalls (item : MemoryItem) : List ToolEntry :=
  match dictGet (item.extra.getD []) "tool_calls" with
  | some (ExtraVal.calls l) => l
  | _ => []

/-- `set_tool_calls(item, tool_calls)`: create `extra` if absent, then
assign the `tool_calls` key. -/
def setToolCalls (item : MemoryItem) (tool_calls : List ToolEntry) : MemoryItem :=
  { item with extra := some (dictSet (item.extra.getD []) "tool_calls" (ExtraVal.calls tool_calls)) }

/-- The `ValueError` message raised by `add_tool_call`. -/
def addToolCallErr : String := "add_tool_call can only be used with tool type memories"

/-- `add_tool_call(item, tool_call)`.  The source mutates `item` and
`tool_call` in place; here the updated pair is returned, and the raised
`ValueError` is the `Except.error` case. -/
def addToolCall (item : MemoryItem) (tool_call : ToolCallResult) :
    Except String (MemoryItem × ToolCallResult) :=
  if item.memory_type ≠ "tool" then .error addToolCallErr
  else
    let tc := tool_call.ensureHash
    let tool_calls := getToolCalls item
    .ok (setToolCalls item (tool_calls ++ [tc.modelDump]), tc)

/-! ### `get_tool_statistics` (src/memu/utils/tool.py) -/

/-- Floor of a rational, computed directly (floor division of numerator by
denominator) so that it evaluates by reduction. -/
def ratFloor (q : ℚ) : Int := q.num.fdiv q.den

/-- Round-half-to-even of a rational to an integer, the rounding mode of
Python `round`. -/
def roundHalfEven (q : ℚ) : Int :=
  let f := ratFloor q
  let frac := q - f
  if frac < 1 / 2 then f
  else if 1 / 2 < frac then f + 1
  else if f % 2 = 0 then f else f + 1

/-- Python `round(q, ndigits)`, modelled exactly on rationals. -/
def pyRound (q : ℚ) (ndigits : Nat) : ℚ :=
  (roundHalfEven (q * 10 ^ ndigits) : ℚ) / 10 ^ ndigits

/-- The result dict of `get_tool_statistics`. -/
structure ToolStats where
  total_calls : Nat
  recent_calls_analyzed : Nat
  avg_time_cost : ℚ
  success_rate : ℚ
  avg_score : ℚ
  avg_token_cost : ℚ
deriving DecidableEq

/-- Python list slice `l[start:]` (to the end), with Python's signed-index
semantics.  `l[-n:]` is `pySliceFrom (-n) l`. -/
def pySliceFrom {α : Type} (start : Int) (l : List α) : List α :=
  if start < 0 then l.drop ((l.length + start : Int)).toNat else l.drop start.toNat

/-- The aggregation body of `get_tool_statistics` over the already-sliced
window `recent_calls`, with `total_calls` the full ledger length. -/
def aggregateRecent (total_calls : Nat) (recent_calls : List ToolEntry) : ToolStats :=
  let recent_count := recent_calls.length
  let total_time := (recent_calls.map (fun c => c.time_cost.getD 0)).sum
  let avg_time_cost := if recent_count > 0 then total_time / recent_count else 0
  let successful := (recent_calls.filter (fun c => c.success.getD true)).length
  let success_rate := if recent_count > 0 then (successful : ℚ) / recent_count else 0
  let total_score := (recent_calls.map (fun c => c.score.getD 0)).sum
  let avg_score := if recent_count > 0 then total_score / recent_count else 0
  let valid_token_calls := recent_calls.filter (fun c => decide (c.token_cost.getD (-1) ≥ 0))
  let avg_token_cost :=
    if ¬ valid_token_calls.isEmpty then
      ((valid_token_calls.map (fun c => (c.token_cost.getD 0 : ℚ))).sum) / valid_token_calls.length
    else 0
  ⟨total_calls, recent_count, pyRound avg_time_cost 3, pyRound success_rate 4,
   pyRound avg_score 3, pyRound avg_token_cost 2⟩

/-- `get_tool_statistics(item, recent_n=20)`. -/
def getToolStatistics (item : MemoryItem) (recent_n : Int := 20) : ToolStats :=
  let tool_calls := getToolCalls item
  if tool_calls.isEmpty then ⟨0, 0, 0, 0, 0, 0⟩
  else aggregateRecent tool_calls.length (pySliceFrom (-recent_n) tool_calls)

/-! ### `merge_scope_model` (src/memu/database/models.py) -/

/-- A pydantic model class, reduced to what `merge_scope_model` inspects and
produces: its name, its declared field names (`model_fields`, in collection
order), and whether its config accepts extra attributes. -/
structure PModel where
  name : String
  fields : List String
  extraAllow : Bool := false

def baseRecordFields : List String := ["id", "created_at", "updated_at"]

def resourceModel : PModel :=
  ⟨"Resource", baseRecordFields ++ ["url", "modality", "local_path", "caption", "embedding"], false⟩

def memoryItemModel : PModel :=
  ⟨"MemoryItem",
   baseRecordFields ++ ["resource_id", "memory_type", "summary", "embedding", "happened_at", "extra"],
   false⟩

def memoryCategoryModel : PModel :=
  ⟨"MemoryCategory", baseRecordFields ++ ["name", "description", "embedding", "summary"], false⟩

def categoryItemModel : PModel :=
  ⟨"CategoryItem", baseRecordFields ++ ["item_id", "category_id"], false⟩

/-- `merge_scope_model(user_model, core_model, name_suffix=...)`: fail with
the sorted list of colliding field names if the two field-name sets
intersect; otherwise build the composite model (multiple inheritance gives
the union of the fields) with `ConfigDict(extra="allow")`. -/
def mergeScopeModel (user_model core_model : PModel) (name_suffix : String) :
    Except (List String) PModel :=
  let overlap :=
    List.insertionSort (· ≤ ·)
      ((user_model.fields.filter (fun f => decide (f ∈ core_model.fields))).dedup)
  if overlap.isEmpty then
    .ok ⟨user_model.name ++ core_model.name ++ name_suffix,
         core_model.fields ++ user_model.fields, true⟩
  else .error overlap

/-- `build_scoped_models(user_model)`. -/
def buildScopedModels (user_model : PModel) :
    Except (List String) (PModel × PModel × PModel × PModel) := do
  let resource_model ← mergeScopeModel user_model resourceModel "Resource"
  let memory_category_model ← mergeScopeModel user_model memoryCategoryModel "MemoryCategory"
  let memory_item_model ← mergeScopeModel user_model memoryItemModel "MemoryItem"
  let category_item_model ← mergeScopeModel user_model categoryItemModel "CategoryItem"
  return (resource_model, memory_category_model, memory_item_model, category_item_model)

/-! ### Shape of the hex digests -/

/-- A lowercase hexadecimal character. -/
def isHexChar (c : Char) : Prop := ('0' ≤ c ∧ c ≤ '9') ∨ ('a' ≤ c ∧ c ≤ 'f')

instance : DecidablePred isHexChar := fun c =>
  inferInstanceAs (Decidable (('0' ≤ c ∧ c ≤ '9') ∨ ('a' ≤ c ∧ c ≤ 'f')))

lemma hexDigitChar_isHex {n : Nat} (h : n < 16) : isHexChar (hexDigitChar n) := by
  interval_cases n <;> decide

lemma length_flatMap_byteToHex (bs : List Nat) :
    (bs.flatMap byteToHex).length = 2 * bs.length := by
  induction bs with
  | nil => rfl
  | cons b bs ih => simp only [List.flatMap_cons, List.length_append, ih, byteToHex]; simp; omega

lemma bytesToHexString_length (bs : List Nat) :
    (bytesToHexString bs).length = 2 * bs.length :=
  length_flatMap_byteToHex bs

lemma mem_bytesToHexString_isHex {bs : List Nat} (hb : ∀ b ∈ bs, b < 256) :
    ∀ c ∈ (bytesToHexString bs).data, isHexChar c := by
  intro c hc
  obtain ⟨b, hbm, hcb⟩ := List.mem_flatMap.mp hc
  have hblt := hb b hbm
  simp only [byteToHex, List.mem_cons, List.not_mem_nil, or_false] at hcb
  rcases hcb with h | h <;> exact h ▸ hexDigitChar_isHex (by omega)

lemma word32LeBytes_lt (w : Nat) : ∀ b ∈ word32LeBytes w, b < 256 := by
  intro b hb
  simp only [word32LeBytes, List.mem_cons, List.not_mem_nil, or_false] at hb
  rcases hb with h | h | h | h <;> subst h <;> omega

lemma word32BeBytes_lt (w : Nat) : ∀ b ∈ word32BeBytes w, b < 256 := by
  intro b hb
  simp only [word32BeBytes, List.mem_cons, List.not_mem_nil, or_false] at hb
  rcases hb with h | h | h | h <;> subst h <;> omega

lemma md5Bytes_length (msg : List Nat) : (md5Bytes msg).length = 16 := by
  simp [md5Bytes, word32LeBytes]

lemma md5Bytes_lt (msg : List Nat) : ∀ b ∈ md5Bytes msg, b < 256 := by
  intro b hb
  simp only [md5Bytes, List.mem_append] at hb
  rcases hb with ((h | h) | h) | h <;> exact word32LeBytes_lt _ b h

lemma sha256Bytes_length (msg : List Nat) : (sha256Bytes msg).length = 32 := by
  simp [sha256Bytes, word32BeBytes]

lemma sha256Bytes_lt (msg : List Nat) : ∀ b ∈ sha256Bytes msg, b < 256 := by
  intro b hb
  simp only [sha256Bytes, List.mem_append] at hb
  rcases hb with ((((((h | h) | h) | h) | h) | h) | h) | h <;> exact word32BeBytes_lt _ b h

lemma md5Hex_length (msg : List Nat) : (md5Hex msg).length = 32 := by
  show (bytesToHexString (md5Bytes msg)).length = 32
  rw [bytesToHexString_length, md5Bytes_length]

lemma md5Hex_ne_empty (msg : List Nat) : md5Hex msg ≠ "" := by
  intro h
  have := md5Hex_length msg
  rw [h] at this
  simp [String.length] at this

lemma sha256Hex_length (msg : List Nat) : (sha256Hex msg).length = 64 := by
  show (bytesToHexString (sha256Bytes msg)).length = 64
  rw [bytesToHexString_length, sha256Bytes_length]

lemma mem_md5Hex_isHex (msg : List Nat) : ∀ c ∈ (md5Hex msg).data, isHexChar c :=
  mem_bytesToHexString_isHex (md5Bytes_lt msg)

lemma mem_sha256Hex_isHex (msg : List Nat) : ∀ c ∈ (sha256Hex msg).data, isHexChar c :=
  mem_bytesToHexString_isHex (sha256Bytes_lt msg)

/-! ### Dict and slice lemmas -/

lemma dictGet_dictSet_self {α : Type} (m : List (String × α)) (k : String) (v : α) :
    dictGet (dictSet m k v) k = some v := by
  induction m with
  | nil => simp [dictGet, dictSet]
  | cons p rest ih =>
      obtain ⟨k', v'⟩ := p
      by_cases h : k' = k
      · simp [dictSet, dictGet, h]
      · simp [dictSet, dictGet, h, ih]

lemma dictGet_dictSet_ne {α : Type} (m : List (String × α)) (k k' : String) (v : α)
    (h : k' ≠ k) : dictGet (dictSet m k v) k' = dictGet m k' := by
  induction m with
  | nil =>
      have h4 : ¬ k = k' := fun he => h he.symm
      simp [dictGet, dictSet, h4]
  | cons p rest ih =>
      obtain ⟨k'', v''⟩ := p
      by_cases h2 : k'' = k
      · subst h2
        have h4 : ¬ k'' = k' := fun he => h he.symm
        simp [dictSet, dictGet, h4]
      · by_cases h3 : k'' = k'
        · subst h3
          simp [dictSet, dictGet, h2]
        · simp [dictSet, dictGet, h2, h3, ih]

lemma getToolCalls_setToolCalls (item : MemoryItem) (calls : List ToolEntry) :
    getToolCalls (setToolCalls item calls) = calls := by
  simp [getToolCalls, setToolCalls, dictGet_dictSet_self]

lemma pySliceFrom_neg_eq {α : Type} (n : Int) (hn : 1 ≤ n) (l : List α) :
    pySliceFrom (-n) l = l.drop (l.length - min n.toNat l.length) := by
  have h0 : (-n) < 0 := by omega
  simp only [pySliceFrom, if_pos h0]
  congr 1
  omega

lemma pySliceFrom_neg_length {α : Type} (n : Int) (hn : 1 ≤ n) (l : List α) :
    (pySliceFrom (-n) l).length = min n.toNat l.length := by
  rw [pySliceFrom_neg_eq n hn, List.length_drop]
  omega

lemma ensureHash_call_hash_ne (r : ToolCallResult) : r.ensureHash.call_hash ≠ "" := by
  unfold ToolCallResult.ensureHash
  by_cases h : r.call_hash = ""
  · rw [if_pos h]
    show r.generateHash ≠ ""
    simp only [ToolCallResult.generateHash]
    exact md5Hex_ne_empty _
  · rw [if_neg h]
    exact h

lemma ensureHash_fields (r : ToolCallResult) :
    r.ensureHash.tool_name = r.tool_name ∧ r.ensureHash.input = r.input ∧
    r.ensureHash.output = r.output ∧ r.ensureHash.success = r.success ∧
    r.ensureHash.time_cost = r.time_cost ∧ r.ensureHash.token_cost = r.token_cost ∧
    r.ensureHash.score = r.score ∧ r.ensureHash.created_at = r.created_at := by
  unfold ToolCallResult.ensureHash
  split <;> exact ⟨rfl, rfl, rfl, rfl, rfl, rfl, rfl, rfl⟩

/-! ### C8 -/

/-- C8: `get_tool_calls` returns the sequence stored under
`extra["tool_calls"]`, and an empty sequence — without failing — when the
key or the whole `extra` map is absent; and on an empty ledger
`get_tool_statistics` returns `total_calls = 0`, `recent_calls_analyzed = 0`
and all four averages equal to `0.0`, for every `recent_n`. -/
theorem getToolCalls_default_and_empty_ledger_stats (item : MemoryItem) (n : Int) :
    (item.extra = none → getToolCalls item = []) ∧
    (dictGet (item.extra.getD []) "tool_calls" = none → getToolCalls item = []) ∧
    (∀ l, dictGet (item.extra.getD []) "tool_calls" = some (ExtraVal.calls l) →
      getToolCalls item = l) ∧
    (getToolCalls item = [] → getToolStatistics item n = ⟨0, 0, 0, 0, 0, 0⟩) := by
  refine ⟨?_, ?_, ?_, ?_⟩
  · intro h; simp [getToolCalls, h, dictGet]
  · intro h; simp [getToolCalls, h]
  · intro l h; simp [getToolCalls, h]
  · intro h; simp [getToolStatistics, h]

def c8item : MemoryItem := { memory_type := "tool", extra := none }

theorem getToolCalls_default_and_empty_ledger_stats_witness :
    getToolCalls c8item = [] ∧ getToolStatistics c8item 20 = ⟨0, 0, 0, 0, 0, 0⟩ := by
  have h := getToolCalls_default_and_empty_ledger_stats c8item 20
  have h1 := h.1 rfl
  exact ⟨h1, h.2.2.2 h1⟩

/-! ### C9 -/

/-- C9: `ensure_hash` sets `call_hash` to `generate_hash()` only when
`call_hash` is empty, never changes a non-empty `call_hash`, and calling it
twice leaves the same `call_hash` as calling it once (idempotence). -/
theorem ensureHash_only_when_empty_and_idempotent (r : ToolCallResult) :
    (r.call_hash ≠ "" → r.ensureHash = r) ∧
    (r.call_hash = "" → r.ensureHash = { r with call_hash := r.generateHash }) ∧
    r.ensureHash.ensureHash = r.ensureHash := by
  refine ⟨?_, ?_, ?_⟩
  · intro h; simp [ToolCallResult.ensureHash, h]
  · intro h; simp [ToolCallResult.ensureHash, h]
  · have h := ensureHash_call_hash_ne r
    conv_lhs => rw [ToolCallResult.ensureHash]
    rw [if_neg h]

def c9r : ToolCallResult := { tool_name := "t", call_hash := "abc" }

theorem ensureHash_only_when_empty_and_idempotent_witness :
    c9r.ensureHash = c9r :=
  (ensureHash_only_when_empty_and_idempotent c9r).1 (by decide)

/-! ### C3 -/

/-- C3: `add_tool_call(item, result)` raises exactly when
`item.memory_type ≠ "tool"` (the error case returns no updated state, so the
item is unchanged); on success it appends exactly one entry — the dict form
of the hashed result, whose `call_hash` is non-empty — to the end of the
stored ledger, keeping all previous entries. -/
theorem addToolCall_guard_and_append (item : MemoryItem) (r : ToolCallResult) :
    ((∃ e, addToolCall item r = .error e) ↔ item.memory_type ≠ "tool") ∧
    (∀ item' r', addToolCall item r = .ok (item', r') →
      r' = r.ensureHash ∧
      getToolCalls item' = getToolCalls item ++ [r'.modelDump] ∧
      (r'.modelDump).call_hash = some r'.call_hash ∧
      r'.call_hash ≠ "") := by
  constructor
  · by_cases hm : item.memory_type = "tool"
    · simp [addToolCall, hm]
    · simp [addToolCall, hm]
  · intro item' r' h
    by_cases hm : item.memory_type = "tool"
    · simp only [addToolCall, hm, ne_eq, not_true_eq_false, if_false, ite_false,
        Except.ok.injEq, Prod.mk.injEq] at h
      obtain ⟨h1, h2⟩ := h
      subst h1
      subst h2
      refine ⟨rfl, getToolCalls_setToolCalls _ _, rfl, ensureHash_call_hash_ne r⟩
    · simp [addToolCall, hm] at h

def c3item : MemoryItem := { memory_type := "tool" }

def c3r : ToolCallResult := { tool_name := "calc", input := .str "2+2", output := "4" }

theorem addToolCall_guard_and_append_witness :
    getToolCalls (setToolCalls c3item (getToolCalls c3item ++ [c3r.ensureHash.modelDump])) =
      getToolCalls c3item ++ [c3r.ensureHash.modelDump] ∧
    c3r.ensureHash.call_hash ≠ "" := by
  have h := (addToolCall_guard_and_append c3item c3r).2
    (setToolCalls c3item (getToolCalls c3item ++ [c3r.ensureHash.modelDump]))
    c3r.ensureHash rfl
  exact ⟨h.2.1, h.2.2.2⟩

/-! ### C10 -/

/-- C10: `set_tool_calls` and a successful `add_tool_call` modify only the
`"tool_calls"` key of `item.extra` (creating the map when absent) and — for
`add_tool_call` — only the `call_hash` field of the result: every other
`extra` key and every other field of the item and of the result is
unchanged. -/
theorem setToolCalls_addToolCall_frame (item : MemoryItem) (calls : List ToolEntry)
    (r : ToolCallResult) :
    ((setToolCalls item calls).id = item.id ∧
     (setToolCalls item calls).created_at = item.created_at ∧
     (setToolCalls item calls).updated_at = item.updated_at ∧
     (setToolCalls item calls).resource_id = item.resource_id ∧
     (setToolCalls item calls).memory_type = item.memory_type ∧
     (setToolCalls item calls).summary = item.summary ∧
     (setToolCalls item calls).embedding = item.embedding ∧
     (setToolCalls item calls).happened_at = item.happened_at ∧
     (∀ k, k ≠ "tool_calls" →
       dictGet ((setToolCalls item calls).extra.getD []) k = dictGet (item.extra.getD []) k)) ∧
    (∀ item' r', addToolCall item r = .ok (item', r') →
      (item'.id = item.id ∧ item'.created_at = item.created_at ∧
       item'.updated_at = item.updated_at ∧ item'.resource_id = item.resource_id ∧
       item'.memory_type = item.memory_type ∧ item'.summary = item.summary ∧
       item'.embedding = item.embedding ∧ item'.happened_at = item.happened_at ∧
       (∀ k, k ≠ "tool_calls" →
         dictGet (item'.extra.getD []) k = dictGet (item.extra.getD []) k)) ∧
      (r'.tool_name = r.tool_name ∧ r'.input = r.input ∧ r'.output = r.output ∧
       r'.success = r.success ∧ r'.time_cost = r.time_cost ∧
       r'.token_cost = r.token_cost ∧ r'.score = r.score ∧
       r'.created_at = r.created_at)) := by
  constructor
  · refine ⟨rfl, rfl, rfl, rfl, rfl, rfl, rfl, rfl, ?_⟩
    intro k hk
    exact dictGet_dictSet_ne _ _ _ _ hk
  · intro item' r' h
    by_cases hm : item.memory_type = "tool"
    · simp only [addToolCall, hm, ne_eq, not_true_eq_false, if_false, ite_false,
        Except.ok.injEq, Prod.mk.injEq] at h
      obtain ⟨h1, h2⟩ := h
      subst h1
      subst h2
      refine ⟨⟨rfl, rfl, rfl, rfl, rfl, rfl, rfl, rfl, ?_⟩, ensureHash_fields r⟩
      intro k hk
      exact dictGet_dictSet_ne _ _ _ _ hk
    · simp [addToolCall, hm] at h

def c10item : MemoryItem :=
  { memory_type := "tool", extra := some [("content_hash", ExtraVal.str "abcd")] }

def c10r : ToolCallResult := { tool_name := "search", input := .str "q", output := "hit" }

theorem setToolCalls_addToolCall_frame_witness :
    dictGet ((setToolCalls c10item []).extra.getD []) "content_hash" =
      dictGet (c10item.extra.getD []) "content_hash" ∧
    (setToolCalls c10item []).memory_type = c10item.memory_type := by
  have h := (setToolCalls_addToolCall_frame c10item [] c10r).1
  exact ⟨h.2.2.2.2.2.2.2.2 "content_hash" (by decide), h.2.2.2.2.1⟩

/-! ### C1 -/

/-- The window the spec describes: the last `min(recent_n, len)` entries of
the ledger, in insertion order. -/
def specWindow (n : Int) (l : List ToolEntry) : List ToolEntry :=
  l.drop (l.length - min n.toNat l.length)

lemma aggregateRecent_recent_calls (t : Nat) (w : List ToolEntry) :
    (aggregateRecent t w).recent_calls_analyzed = w.length := rfl

lemma getToolStatistics_eq_aggregate (item : MemoryItem) (n : Int)
    (hne : getToolCalls item ≠ []) :
    getToolStatistics item n =
      aggregateRecent (getToolCalls item).length (pySliceFrom (-n) (getToolCalls item)) := by
  have h : (getToolCalls item).isEmpty = false := by
    rw [List.isEmpty_eq_false]
    exact hne
  simp [getToolStatistics, h]

def c1entries : List ToolEntry :=
  [{ time_cost := some 1, success := some false },
   { time_cost := some (1 / 10), success := some true },
   { time_cost := some (1 / 10), success := some true }]

def c1item : MemoryItem :=
  { memory_type := "tool", extra := some [("tool_calls", ExtraVal.calls c1entries)] }

unseal Rat.add Rat.mul Rat.inv Rat.sub in
/-- C1 (amended): for every item with a non-empty ledger and every
`recent_n ≥ 1`, `recent_calls_analyzed = min(recent_n, len)` and the
statistics are computed over exactly the last `recent_n` entries in
insertion order; with time costs `[1.0, 0.1, 0.1]` and successes
`[false, true, true]`, `recent_n = 2` yields `recent_calls_analyzed = 2`,
`success_rate = 1.0` and `total_calls = 3`.  (At `recent_n = 0` the Python
slice `tool_calls[-0:]` is the whole ledger, so the bound fails there.) -/
theorem getToolStatistics_window (item : MemoryItem) (n : Int)
    (hn : 1 ≤ n) (hne : getToolCalls item ≠ []) :
    (getToolStatistics item n).recent_calls_analyzed =
      min n.toNat (getToolCalls item).length ∧
    getToolStatistics item n =
      aggregateRecent (getToolCalls item).length (specWindow n (getToolCalls item)) ∧
    (getToolStatistics c1item 2).recent_calls_analyzed = 2 ∧
    (getToolStatistics c1item 2).success_rate = 1 ∧
    (getToolStatistics c1item 2).total_calls = 3 := by
  have hagg := getToolStatistics_eq_aggregate item n hne
  refine ⟨?_, ?_, by decide, by decide, by decide⟩
  · rw [hagg, aggregateRecent_recent_calls]
    exact pySliceFrom_neg_length n hn _
  · rw [hagg, specWindow, pySliceFrom_neg_eq n hn]

theorem getToolStatistics_window_witness :
    (getToolStatistics c1item 2).recent_calls_analyzed =
      min (2 : Int).toNat (getToolCalls c1item).length := by
  have hne : getToolCalls c1item ≠ [] := by
    intro h
    simp [getToolCalls, c1item, dictGet, c1entries] at h
  exact (getToolStatistics_window c1item 2 (by decide) hne).1

def c1cexItem : MemoryItem :=
  { memory_type := "tool",
    extra := some [("tool_calls", ExtraVal.calls [{ time_cost := some 1 }])] }

unseal Rat.add Rat.mul Rat.inv Rat.sub in
/-- C1 counterexample: with a one-entry ledger and `recent_n = 0`, the code
analyzes the whole ledger (`recent_calls_analyzed = 1`), not
`min(0, 1) = 0` as the claim states for every `recent_n`. -/
theorem getToolStatistics_window_cex :
    (getToolStatistics c1cexItem 0).recent_calls_analyzed = 1 ∧
    min ((0 : Int)).toNat (getToolCalls c1cexItem).length = 0 := by
  constructor
  · decide
  · decide

/-! ### C2 -/

/-- The subset of a window whose `token_cost` is present and `≥ 0`
(a missing `token_cost` counts as the `-1` sentinel and is excluded). -/
def specValidTokens (w : List ToolEntry) : List ToolEntry :=
  w.filter (fun c => decide (c.token_cost.getD (-1) ≥ 0))

/-- The mean of the `token_cost` values of a window subset. -/
def specTokenMean (w : List ToolEntry) : ℚ :=
  ((w.map (fun c => (c.token_cost.getD 0 : ℚ))).sum) / w.length

unseal Rat.add Rat.mul Rat.inv Rat.sub in
lemma roundHalfEven_zero : roundHalfEven 0 = 0 := by decide

lemma pyRound_zero (nd : Nat) : pyRound 0 nd = 0 := by
  unfold pyRound
  rw [show (0 : ℚ) * 10 ^ nd = 0 by ring, roundHalfEven_zero]
  norm_num

lemma aggregateRecent_avg_token_cost (t : Nat) (w : List ToolEntry) :
    (aggregateRecent t w).avg_token_cost =
      if (specValidTokens w).isEmpty then 0
      else pyRound (specTokenMean (specValidTokens w)) 2 := by
  unfold aggregateRecent specValidTokens specTokenMean
  by_cases h : (w.filter (fun c => decide (c.token_cost.getD (-1) ≥ 0))).isEmpty
  · simp [h, pyRound_zero]
  · simp [h]

def c2entries : List ToolEntry :=
  [{ token_cost := some 10 }, { token_cost := some 15 }, { token_cost := some (-1) }]

def c2item : MemoryItem :=
  { memory_type := "tool", extra := some [("tool_calls", ExtraVal.calls c2entries)] }

unseal Rat.add Rat.mul Rat.inv Rat.sub in
/-- C2 (amended): `avg_token_cost` is the mean of `token_cost` over only the
window entries whose `token_cost` (defaulting to the `-1` sentinel when
missing) is `≥ 0`, rounded half-to-even to 2 decimal places, and `0.0` when
no window entry qualifies; token costs `[10, 15, -1]` give `12.5`. -/
theorem getToolStatistics_token_sentinel (item : MemoryItem) (n : Int)
    (hn : 1 ≤ n) (hne : getToolCalls item ≠ []) :
    (getToolStatistics item n).avg_token_cost =
      (if (specValidTokens (specWindow n (getToolCalls item))).isEmpty then 0
       else pyRound (specTokenMean (specValidTokens (specWindow n (getToolCalls item)))) 2) ∧
    (getToolStatistics c2item 20).avg_token_cost = 25 / 2 := by
  refine ⟨?_, by decide⟩
  rw [getToolStatistics_eq_aggregate item n hne, aggregateRecent_avg_token_cost,
    show pySliceFrom (-n) (getToolCalls item) = specWindow n (getToolCalls item) from
      pySliceFrom_neg_eq n hn _]

theorem getToolStatistics_token_sentinel_witness :
    (getToolStatistics c2item 20).avg_token_cost = 25 / 2 := by
  have hne : getToolCalls c2item ≠ [] := by
    intro h
    simp [getToolCalls, c2item, dictGet, c2entries] at h
  exact (getToolStatistics_token_sentinel c2item 20 (by decide) hne).2

def c2cexItem : MemoryItem :=
  { memory_type := "tool",
    extra := some [("tool_calls",
      ExtraVal.calls [{ token_cost := some 0 }, { token_cost := some 0 },
                      { token_cost := some 1 }])] }

unseal Rat.add Rat.mul Rat.inv Rat.sub in
/-- C2 counterexample: with valid token costs `[0, 0, 1]` the exact mean is
`1/3`, but the returned `avg_token_cost` is the rounded value `0.33`, so the
returned value is not the mean itself. -/
theorem getToolStatistics_token_sentinel_cex :
    (getToolStatistics c2cexItem 20).avg_token_cost = 33 / 100 ∧
    (33 / 100 : ℚ) ≠ ((0 : ℚ) + 0 + 1) / 3 := by
  constructor
  · decide
  · decide

/-! ### C4 -/

def c4scope : PModel := ⟨"Scope", ["id"], false⟩

def c4okScope : PModel := ⟨"Scope", ["tenant_id", "user_id"], false⟩

/-- C4: `merge_scope_model` fails exactly when the field-name sets of the
extension schema and the core schema intersect, the error identifies every
colliding field name in sorted order, and on success the composite schema
declares the union of both field sets and accepts arbitrary extra
attributes; an extension declaring `id` against `Resource` fails listing
`"id"`. -/
theorem mergeScopeModel_conflict (u c : PModel) (suffix : String) :
    ((∃ e, mergeScopeModel u c suffix = .error e) ↔ ∃ f, f ∈ u.fields ∧ f ∈ c.fields) ∧
    (∀ e, mergeScopeModel u c suffix = .error e →
      (∀ f, f ∈ e ↔ f ∈ u.fields ∧ f ∈ c.fields) ∧ e.Sorted (· ≤ ·) ∧ e.Nodup) ∧
    (∀ s, mergeScopeModel u c suffix = .ok s →
      (∀ f, f ∈ s.fields ↔ f ∈ u.fields ∨ f ∈ c.fields) ∧ s.extraAllow = true) ∧
    mergeScopeModel c4scope resourceModel "Resource" = .error ["id"] := by
  have hov : ∀ f, f ∈ List.insertionSort (· ≤ ·)
      ((u.fields.filter (fun g => decide (g ∈ c.fields))).dedup) ↔
      f ∈ u.fields ∧ f ∈ c.fields := by
    intro f
    rw [(List.perm_insertionSort _ _).mem_iff, List.mem_dedup, List.mem_filter]
    simp
  have hunf : mergeScopeModel u c suffix =
      if (List.insertionSort (· ≤ ·)
          ((u.fields.filter (fun g => decide (g ∈ c.fields))).dedup)).isEmpty
      then .ok ⟨u.name ++ c.name ++ suffix, c.fields ++ u.fields, true⟩
      else .error (List.insertionSort (· ≤ ·)
          ((u.fields.filter (fun g => decide (g ∈ c.fields))).dedup)) := rfl
  refine ⟨?_, ?_, ?_, rfl⟩
  · constructor
    · rintro ⟨e, he⟩
      rw [hunf] at he
      by_cases hemp : (List.insertionSort (· ≤ ·)
          ((u.fields.filter (fun g => decide (g ∈ c.fields))).dedup)).isEmpty
      · rw [if_pos hemp] at he
        exact absurd he (by simp)
      · rw [Bool.not_eq_true, List.isEmpty_eq_false] at hemp
        obtain ⟨f, hf⟩ := List.exists_mem_of_ne_nil _ hemp
        exact ⟨f, (hov f).mp hf⟩
    · rintro ⟨f, hf1, hf2⟩
      rw [hunf]
      have hmem := (hov f).mpr ⟨hf1, hf2⟩
      have hne := List.ne_nil_of_mem hmem
      rw [if_neg (by rw [Bool.not_eq_true, List.isEmpty_eq_false]; exact hne)]
      exact ⟨_, rfl⟩
  · intro e he
    rw [hunf] at he
    by_cases hemp : (List.insertionSort (· ≤ ·)
        ((u.fields.filter (fun g => decide (g ∈ c.fields))).dedup)).isEmpty
    · rw [if_pos hemp] at he
      exact absurd he (by simp)
    · rw [if_neg hemp] at he
      injection he with hee
      subst hee
      refine ⟨hov, List.sorted_insertionSort _ _, ?_⟩
      exact ((List.perm_insertionSort _ _).nodup_iff).mpr (List.nodup_dedup _)
  · intro s hs
    rw [hunf] at hs
    by_cases hemp : (List.insertionSort (· ≤ ·)
        ((u.fields.filter (fun g => decide (g ∈ c.fields))).dedup)).isEmpty
    · rw [if_pos hemp] at hs
      injection hs with hss
      subst hss
      constructor
      · intro f
        simp only [List.mem_append]
        exact or_comm
      · rfl
    · rw [if_neg hemp] at hs
      exact absurd hs (by simp)

theorem mergeScopeModel_conflict_witness :
    ("id" ∈ (["id"] : List String) ↔ "id" ∈ c4scope.fields ∧ "id" ∈ resourceModel.fields) ∧
    (["id"] : List String).Sorted (· ≤ ·) ∧
    (∀ f, f ∈ (mergeScopeModel c4okScope resourceModel "Resource").toOption.elim
        ([] : List String) PModel.fields ↔
      f ∈ c4okScope.fields ∨ f ∈ resourceModel.fields) := by
  have h := mergeScopeModel_conflict c4scope resourceModel "Resource"
  have herr := h.2.1 ["id"] h.2.2.2
  have hok := (mergeScopeModel_conflict c4okScope resourceModel "Resource").2.2.1
    ⟨"ScopeResourceResource",
     resourceModel.fields ++ ["tenant_id", "user_id"], true⟩ rfl
  refine ⟨herr.1 "id", herr.2.1, ?_⟩
  intro f
  exact hok.1 f

/-! ### C5 -/

lemma stringMk_length (l : List Char) : (String.mk l).length = l.length := rfl

/-- C5: `compute_content_hash` is the first 16 hex characters of the
SHA-256 digest of the UTF-8 bytes of `"{memory_type}:{normalized}"`, where
`normalized` lower-cases, trims and collapses whitespace runs; hence the
result is always exactly 16 lowercase hex characters, and summaries
differing only in letter case or whitespace hash identically. -/
theorem computeContentHash_spec (s₁ s₂ t : String) :
    computeContentHash s₁ t =
      pyStrTake (sha256Hex (utf8Encode (t ++ ":" ++ normalizeSummary s₁))) 16 ∧
    (computeContentHash s₁ t).length = 16 ∧
    (∀ c ∈ (computeContentHash s₁ t).data, isHexChar c) ∧
    (pyLower s₁ = pyLower s₂ → computeContentHash s₁ t = computeContentHash s₂ t) ∧
    (normalizeSummary s₁ = normalizeSummary s₂ →
      computeContentHash s₁ t = computeContentHash s₂ t) := by
  refine ⟨rfl, ?_, ?_, ?_, ?_⟩
  · show (String.mk ((sha256Hex (utf8Encode
        (t ++ ":" ++ normalizeSummary s₁))).data.take 16)).length = 16
    rw [stringMk_length, List.length_take]
    have h := sha256Hex_length (utf8Encode (t ++ ":" ++ normalizeSummary s₁))
    rw [show (sha256Hex (utf8Encode (t ++ ":" ++ normalizeSummary s₁))).length =
        (sha256Hex (utf8Encode (t ++ ":" ++ normalizeSummary s₁))).data.length from rfl] at h
    omega
  · intro ch hch
    have hsub : ch ∈ (sha256Hex (utf8Encode (t ++ ":" ++ normalizeSummary s₁))).data :=
      List.take_subset 16 _ hch
    exact mem_sha256Hex_isHex _ ch hsub
  · intro h
    show pyStrTake (sha256Hex (utf8Encode
        (t ++ ":" ++ String.intercalate " " (pySplitWS (pyLower s₁))))) 16 = _
    rw [h]
    rfl
  · intro h
    unfold computeContentHash
    rw [h]

theorem computeContentHash_spec_witness :
    computeContentHash "I love coffee" "profile" =
      computeContentHash "I  love   Coffee" "profile" ∧
    (computeContentHash "I love coffee" "profile").length = 16 := by
  have h := computeContentHash_spec "I love coffee" "I  love   Coffee" "profile"
  exact ⟨h.2.2.2.2 (by decide), h.2.1⟩

/-! ### Sorted-keys serialization is insertion-order independent -/

instance : IsTotal (String × String) keyLe := ⟨fun a b => le_total a.1 b.1⟩

instance : IsTrans (String × String) keyLe := ⟨fun _ _ _ h₁ h₂ => le_trans h₁ h₂⟩

/-- Strict version of `keyLe`. -/
def keyLt (p q : String × String) : Prop := p.1 < q.1

instance : IsAntisymm (String × String) keyLt :=
  ⟨fun _ _ h₁ h₂ => absurd (lt_trans h₁ h₂) (lt_irrefl _)⟩

lemma listPairwise_and {α : Type} {R S : α → α → Prop} :
    ∀ {l : List α}, l.Pairwise R → l.Pairwise S → l.Pairwise (fun a b => R a b ∧ S a b) := by
  intro l h₁ h₂
  induction h₁ with
  | nil => exact List.Pairwise.nil
  | cons hr _ ih =>
      cases h₂ with
      | cons hs ht => exact List.Pairwise.cons (fun b hb => ⟨hr b hb, hs b hb⟩) (ih ht)

lemma insertionSort_keyLe_eq_of_perm (l₁ l₂ : List (String × String))
    (hp : l₁.Perm l₂) (hn : (l₁.map Prod.fst).Nodup) :
    List.insertionSort keyLe l₁ = List.insertionSort keyLe l₂ := by
  have hperm₁ := List.perm_insertionSort keyLe l₁
  have hperm₂ := List.perm_insertionSort keyLe l₂
  have hn₂ : (l₂.map Prod.fst).Nodup := ((hp.map Prod.fst).nodup_iff).mp hn
  have hstrict : ∀ (l : List (String × String)), ((l.map Prod.fst).Nodup) →
      (List.insertionSort keyLe l).Pairwise keyLt := by
    intro l hl
    have hsorted : (List.insertionSort keyLe l).Pairwise keyLe :=
      List.sorted_insertionSort keyLe l
    have hnd : ((List.insertionSort keyLe l).map Prod.fst).Nodup :=
      ((List.perm_insertionSort keyLe l).map Prod.fst).nodup_iff.mpr hl
    have hne : (List.insertionSort keyLe l).Pairwise (fun p q => p.1 ≠ q.1) :=
      List.pairwise_map.mp hnd
    exact (listPairwise_and hsorted hne).imp (fun h => lt_of_le_of_ne h.1 h.2)
  exact List.eq_of_perm_of_sorted (hperm₁.trans (hp.trans hperm₂.symm))
    (hstrict l₁ hn) (hstrict l₂ hn₂)

/-- The serialization of a JSON object, with the `attach` recursion
unfolded to a plain `map` over the entries. -/
lemma dumps_obj_eq (m : List (String × JVal)) :
    JVal.dumps (.obj m) =
      "\x7b" ++ String.intercalate ", "
        ((List.insertionSort keyLe (m.map (fun p => (p.1, p.2.dumps)))).map
          (fun p => jsonQuote p.1 ++ ": " ++ p.2)) ++ "\x7d" := by
  rw [JVal.dumps]
  rw [List.attach_map_val m (fun p => (p.1, p.2.dumps))]

lemma dumps_obj_eq_of_perm (m₁ m₂ : List (String × JVal)) (hp : m₁.Perm m₂)
    (hn : (m₁.map Prod.fst).Nodup) :
    JVal.dumps (.obj m₁) = JVal.dumps (.obj m₂) := by
  rw [dumps_obj_eq, dumps_obj_eq]
  have hsorteq : List.insertionSort keyLe (m₁.map (fun p => (p.1, p.2.dumps))) =
      List.insertionSort keyLe (m₂.map (fun p => (p.1, p.2.dumps))) := by
    apply insertionSort_keyLe_eq_of_perm
    · exact hp.map _
    · simpa [List.map_map, Function.comp] using hn
  rw [hsorteq]

/-! ### C6 -/

/-- C6: `generate_hash` is the full 32-hex-character MD5 digest of the
UTF-8 bytes of `"{tool_name}|{input_str}|{output}"`, where `input_str` is
the sorted-keys JSON serialization for a mapping input and the plain string
otherwise; mapping inputs that are equal as mappings (same distinct keys
and values, in any insertion order) hash identically. -/
theorem generateHash_md5_sorted_keys (r : ToolCallResult) :
    r.generateHash =
      md5Hex (utf8Encode (r.tool_name ++ "|" ++ toolInputStr r.input ++ "|" ++ r.output)) ∧
    (∀ m, r.input = .dict m → toolInputStr r.input = JVal.dumps (.obj m)) ∧
    (∀ s, r.input = .str s → toolInputStr r.input = s) ∧
    (r.generateHash).length = 32 ∧
    (∀ c ∈ (r.generateHash).data, isHexChar c) ∧
    (∀ (r₂ : ToolCallResult) (m₁ m₂ : List (String × JVal)),
      r.input = .dict m₁ → r₂.input = .dict m₂ →
      r₂.tool_name = r.tool_name → r₂.output = r.output →
      m₁.Perm m₂ → (m₁.map Prod.fst).Nodup →
      r.generateHash = r₂.generateHash) := by
  refine ⟨rfl, ?_, ?_, md5Hex_length _, mem_md5Hex_isHex _, ?_⟩
  · intro m h
    rw [h]
    rfl
  · intro s h
    rw [h]
    rfl
  · intro r₂ m₁ m₂ h1 h2 ht ho hperm hnodup
    unfold ToolCallResult.generateHash
    rw [h1, h2, ht, ho]
    rw [show toolInputStr (ToolInput.dict m₁) = JVal.dumps (.obj m₁) from rfl,
        show toolInputStr (ToolInput.dict m₂) = JVal.dumps (.obj m₂) from rfl,
        dumps_obj_eq_of_perm m₁ m₂ hperm hnodup]

def c6rA : ToolCallResult :=
  { tool_name := "t", input := .dict [("b", .int 2), ("a", .int 1)], output := "o" }

def c6rB : ToolCallResult :=
  { tool_name := "t", input := .dict [("a", .int 1), ("b", .int 2)], output := "o" }

theorem generateHash_md5_sorted_keys_witness :
    c6rA.generateHash = c6rB.generateHash ∧ (c6rA.generateHash).length = 32 := by
  have h := generateHash_md5_sorted_keys c6rA
  refine ⟨h.2.2.2.2.2 c6rB [("b", JVal.int 2), ("a", JVal.int 1)]
    [("a", JVal.int 1), ("b", JVal.int 2)] rfl rfl rfl rfl
    (List.Perm.swap ("a", JVal.int 1) ("b", JVal.int 2) []) (by decide), h.2.2.2.1⟩

/-! ### C7 -/

/-- The message string whose MD5 digest `generate_hash` returns. -/
def hashMessage (r : ToolCallResult) : String :=
  r.tool_name ++ "|" ++ toolInputStr r.input ++ "|" ++ r.output

lemma strAppend_right_cancel {a b c : String} (h : a ++ c = b ++ c) : a = b := by
  apply String.ext
  have hd := congrArg String.data h
  rw [String.data_append, String.data_append] at hd
  exact List.append_cancel_right hd

lemma strAppend_left_cancel {a b c : String} (h : c ++ a = c ++ b) : a = b := by
  apply String.ext
  have hd := congrArg String.data h
  rw [String.data_append, String.data_append] at hd
  exact List.append_cancel_left hd

/-- C7 (amended): identical `(tool_name, input, output)` triples always give
identical hashes; with the other two fields fixed, changing `tool_name` or
`output` always changes the digested message
`"{tool_name}|{input_str}|{output}"`, while changing `input` changes the
digested message exactly when its serialized form `input_str` changes (a
mapping and a string whose serializations coincide produce the same
message and hence the same hash). -/
theorem generateHash_sensitivity (r₁ r₂ : ToolCallResult) :
    (r₁.tool_name = r₂.tool_name → r₁.input = r₂.input → r₁.output = r₂.output →
      r₁.generateHash = r₂.generateHash) ∧
    (hashMessage r₁ = hashMessage r₂ → r₁.generateHash = r₂.generateHash) ∧
    (r₁.input = r₂.input → r₁.output = r₂.output →
      (hashMessage r₁ = hashMessage r₂ ↔ r₁.tool_name = r₂.tool_name)) ∧
    (r₁.tool_name = r₂.tool_name → r₁.input = r₂.input →
      (hashMessage r₁ = hashMessage r₂ ↔ r₁.output = r₂.output)) ∧
    (r₁.tool_name = r₂.tool_name → r₁.output = r₂.output →
      (hashMessage r₁ = hashMessage r₂ ↔ toolInputStr r₁.input = toolInputStr r₂.input)) := by
  have hgen : ∀ r : ToolCallResult, r.generateHash = md5Hex (utf8Encode (hashMessage r)) :=
    fun r => rfl
  refine ⟨?_, ?_, ?_, ?_, ?_⟩
  · intro ht hi ho
    rw [hgen, hgen]
    unfold hashMessage
    rw [ht, hi, ho]
  · intro hm
    rw [hgen, hgen, hm]
  · intro hi ho
    constructor
    · intro hm
      unfold hashMessage at hm
      rw [hi, ho] at hm
      have h1 := strAppend_right_cancel hm
      have h2 := strAppend_right_cancel h1
      have h3 := strAppend_right_cancel h2
      exact strAppend_right_cancel h3
    · intro ht
      unfold hashMessage
      rw [ht, hi, ho]
  · intro ht hi
    constructor
    · intro hm
      unfold hashMessage at hm
      rw [ht, hi] at hm
      exact strAppend_left_cancel hm
    · intro ho
      unfold hashMessage
      rw [ht, hi, ho]
  · intro ht ho
    constructor
    · intro hm
      unfold hashMessage at hm
      rw [ht, ho] at hm
      have h1 := strAppend_right_cancel hm
      have h2 := strAppend_right_cancel h1
      exact strAppend_left_cancel h2
    · intro hi
      unfold hashMessage
      rw [ht, ho, hi]

lemma dumps_obj_nil : JVal.dumps (.obj []) = "\x7b\x7d" := by
  rw [dumps_obj_eq]
  rfl

def c7rDict : ToolCallResult := { tool_name := "t", input := .dict [], output := "o" }

def c7rStr : ToolCallResult := { tool_name := "t", input := .str "\x7b\x7d", output := "o" }

/-- C7 counterexample: the empty mapping input and the string input
`"{}"` are different values of `input`, with `tool_name` and `output`
unchanged, yet `generate_hash` returns the same value for both, because
both serialize to the same `input_str`. -/
theorem generateHash_sensitivity_cex :
    c7rDict.input ≠ c7rStr.input ∧
    c7rDict.tool_name = c7rStr.tool_name ∧
    c7rDict.output = c7rStr.output ∧
    c7rDict.generateHash = c7rStr.generateHash := by
  refine ⟨?_, rfl, rfl, ?_⟩
  · intro h
    exact ToolInput.noConfusion h
  · unfold ToolCallResult.generateHash
    rw [show toolInputStr c7rDict.input = "\x7b\x7d" from dumps_obj_nil]
    rfl

theorem generateHash_sensitivity_witness :
    hashMessage c7rDict = hashMessage c7rStr := by
  have h := (generateHash_sensitivity c7rDict c7rStr).2.2.2.2 rfl rfl
  apply h.mpr
  exact dumps_obj_nil

